import Mathlib

/-!
Verification development for the boot-time physical-memory core:
a shallow embedding of `src/mm/rangeset.rs` (fixed-capacity disjoint-interval
set), `src/mm.rs` (physical-memory cursor) and `src/acpi.rs` (ACPI table
walker and MADT parser), together with theorems settling the specification
claims about them.

Machine integers (`u64`, `usize`, `u8`) are modelled as `Nat` with explicit
`% 2^64` (resp. `% 256`) applied exactly where the source wraps; checked
arithmetic is modelled by explicit bounds tests mirroring the source's
`checked_add`/`checked_sub`/`checked_mul` calls.
-/

set_option maxRecDepth 10000

namespace Fuzzoz

/-- Decidable equality for `Except`, so concrete runs of the fallible
operations can be checked by `decide`. -/
instance {ε α : Type} [DecidableEq ε] [DecidableEq α] : DecidableEq (Except ε α) :=
  fun a b =>
    match a, b with
    | .error e1, .error e2 =>
      if h : e1 = e2 then isTrue (by rw [h]) else isFalse (by simp [h])
    | .error _, .ok _ => isFalse (by simp)
    | .ok _, .error _ => isFalse (by simp)
    | .ok v1, .ok v2 =>
      if h : v1 = v2 then isTrue (by rw [h]) else isFalse (by simp [h])

/-- `2^64`, the modulus of `u64` arithmetic. -/
def U64 : Nat := 2 ^ 64

/-- `u64::MAX = 2^64 - 1`. -/
def U64MAX : Nat := U64 - 1

/-- `u64::saturating_add(1)`: adds one, saturating at `u64::MAX`. -/
def satAdd1 (x : Nat) : Nat := min (x + 1) U64MAX

/-- An inclusive `u64` range, mirroring `Range { start, end }` from
`src/mm/rangeset.rs` (the source field `end` is called `stop` here because
`end` is a Lean keyword). -/
structure Range where
  start : Nat
  stop : Nat
deriving DecidableEq, Repr

/-- Errors of `RangeSet` operations, mirroring `enum Error` in
`src/mm/rangeset.rs`. -/
inductive RsError where
  | invalidIndex
  | invalidRange
  | outOfEntries
  | outOfMemory
  | zeroSizeAllocation
  | invalidAlignment
deriving DecidableEq, Repr

/-- The fixed-capacity range set, mirroring `RangeSet` from
`src/mm/rangeset.rs`: a 256-slot array of ranges (modelled as a list that all
operations keep at length 256) and the number `in_use` of live slots. -/
structure RangeSet where
  ranges : List Range
  inUse : Nat
deriving DecidableEq, Repr

/-- `RangeSet::new()`: 256 zeroed slots, none in use. -/
def RangeSet.new : RangeSet :=
  { ranges := List.replicate 256 ⟨0, 0⟩, inUse := 0 }

/-- `RangeSet::entries()`: the `in_use` live slots. -/
def RangeSet.entries (rs : RangeSet) : List Range :=
  rs.ranges.take rs.inUse

/-- Read slot `i` of the backing array (never out of bounds in the source;
the default is irrelevant). -/
def getSlot (l : List Range) (i : Nat) : Range := l.getD i ⟨0, 0⟩

/-- Array swap of two slots, mirroring `self.ranges.swap(idx, jdx)`. -/
def listSwap (l : List Range) (i j : Nat) : List Range :=
  (l.set i (getSlot l j)).set j (getSlot l i)

/-- Normalise a range so `start ≤ stop`, mirroring the `mem::swap`
normalisation at the head of `overlaps` and `contains`. -/
def normR (a : Range) : Range :=
  if a.start > a.stop then ⟨a.stop, a.start⟩ else a

/-- `overlaps(a, b)` from `src/mm/rangeset.rs`: the common sub-range of the
two (normalised) ranges, if any. -/
def overlapsR (a b : Range) : Option Range :=
  let a := normR a
  let b := normR b
  if a.start ≤ b.stop ∧ b.start ≤ a.stop then
    some ⟨max a.start b.start, min a.stop b.stop⟩
  else
    none

/-- `contains(a, b)` from `src/mm/rangeset.rs`: the (normalised) range `a`
lies entirely inside the (normalised) range `b`. -/
def containsR (a b : Range) : Bool :=
  let a := normR a
  let b := normR b
  decide (a.start ≥ b.start ∧ a.stop ≤ b.stop)

/-- `RangeSet::delete(idx)`: swap slot `idx` with the last live slot and
shrink `in_use` (the source's `assert!` sits behind the same bounds test and
can never fire). -/
def RangeSet.delete (rs : RangeSet) (idx : Nat) : Except RsError RangeSet :=
  if idx ≥ rs.inUse then
    .error .invalidIndex
  else
    .ok { ranges := listSwap rs.ranges idx (rs.inUse - 1), inUse := rs.inUse - 1 }

/-- The merge test of `RangeSet::insert`: index of the first live entry that
overlaps or touches `range` (both ends extended by a saturating `+1`). -/
def findMergeIdx (rs : RangeSet) (range : Range) : Option Nat :=
  (List.range rs.inUse).find? fun ii =>
    let ent := getSlot rs.ranges ii
    (overlapsR ⟨range.start, satAdd1 range.stop⟩ ⟨ent.start, satAdd1 ent.stop⟩).isSome

/-- On a successful delete `in_use` went down by one. -/
theorem delete_inUse {rs : RangeSet} {idx : Nat} {rs' : RangeSet}
    (h : rs.delete idx = .ok rs') : rs'.inUse = rs.inUse - 1 ∧ idx < rs.inUse := by
  unfold RangeSet.delete at h
  split at h
  · exact absurd h (by simp)
  · rename_i hlt
    refine ⟨?_, by omega⟩
    cases h
    rfl

/-- The `'try_merges` loop of `RangeSet::insert`: repeatedly union the
candidate with any overlapping-or-touching entry and delete that entry,
restarting the scan, until no merge is found.  Each merge deletes one live
entry, so the loop runs at most `in_use + 1` times; the recursion is
structured on a fuel bound, and `insertLoop_total` below proves the
out-of-fuel answer `none` is never produced for the fuel `insert` passes. -/
def insertLoop : Nat → RangeSet → Range → Option (Except RsError (RangeSet × Range))
  | 0, _, _ => none
  | fuel + 1, rs, range =>
    match findMergeIdx rs range with
    | none => some (.ok (rs, range))
    | some ii =>
      let ent := getSlot rs.ranges ii
      match rs.delete ii with
      | .error e => some (.error e)
      | .ok rs' =>
        insertLoop fuel rs' ⟨min range.start ent.start, max range.stop ent.stop⟩

/-- With fuel exceeding `in_use`, the merge loop always produces an answer:
every iteration deletes one live entry. -/
theorem insertLoop_total : ∀ (fuel : Nat) (rs : RangeSet) (range : Range),
    rs.inUse < fuel → insertLoop fuel rs range ≠ none := by
  intro fuel
  induction fuel with
  | zero => intro rs range h; omega
  | succ n ih =>
    intro rs range h
    unfold insertLoop
    split
    · simp
    · split
      · simp
      · rename_i ii hfind rs' hd
        have hdel := delete_inUse hd
        exact ih rs' _ (by omega)

/-- `RangeSet::insert(range)` from `src/mm/rangeset.rs`.  The `none` branch
of the merge loop is unreachable (`insertLoop_total`). -/
def RangeSet.insert (rs : RangeSet) (range : Range) : Except RsError RangeSet :=
  if range.stop < range.start then
    .error .invalidRange
  else
    match insertLoop (rs.inUse + 1) rs range with
    | none => .error .outOfEntries
    | some (.error e) => .error e
    | some (.ok (rs', range')) =>
      -- `self.ranges.get_mut(self.in_use)`: append iff a slot is free.
      if rs'.inUse < rs'.ranges.length then
        .ok { ranges := rs'.ranges.set rs'.inUse range', inUse := rs'.inUse + 1 }
      else
        .error .outOfEntries

/-- Result of one pass of the inner `for` scan of `RangeSet::remove`. -/
inductive ScanOut where
  | done (rs : RangeSet)
  | restart (rs : RangeSet)
  | fail (e : RsError)
deriving DecidableEq, Repr

/-- One pass of the inner `for ii in 0..self.in_use` scan of
`RangeSet::remove` starting at index `ii` with scan bound `n` (the value of
`in_use` when the pass began; in-place trims do not change it).  The
entirely-contained case deletes and restarts the outer loop; the two partial
overlap cases trim the entry in place and keep scanning; the split case
writes the tail through the freshly obtained slot reference — whose `start`
is read back from the *stale slot contents*, exactly as the shadowed `ent`
in the source does — and restarts.
The scan position `ii` runs up to the bound `n = in_use`; the recursion is
structured on the remaining count `rem = n - ii` (the pass starts with
`removeScan range rs 0 n` where `n = rs.inUse`). -/
def removeScan (range : Range) : RangeSet → Nat → Nat → ScanOut
  | rs, _, 0 => .done rs
  | rs, ii, rem + 1 =>
    let ent := getSlot rs.ranges ii
    if (overlapsR range ent).isNone then
      removeScan range rs (ii + 1) rem
    else if containsR ent range then
      match rs.delete ii with
      | .ok rs' => .restart rs'
      | .error e => .fail e
    else if range.start ≤ ent.start then
      removeScan range
        { ranges := rs.ranges.set ii ⟨satAdd1 range.stop, ent.stop⟩, inUse := rs.inUse }
        (ii + 1) rem
    else if range.stop ≥ ent.stop then
      removeScan range
        { ranges := rs.ranges.set ii ⟨ent.start, range.start - 1⟩, inUse := rs.inUse }
        (ii + 1) rem
    else
      let rs1 : RangeSet :=
        { ranges := rs.ranges.set ii ⟨satAdd1 range.stop, ent.stop⟩, inUse := rs.inUse }
      if rs1.inUse < rs1.ranges.length then
        let stale := getSlot rs1.ranges rs1.inUse
        .restart
          { ranges := rs1.ranges.set rs1.inUse ⟨stale.start, range.start - 1⟩,
            inUse := rs1.inUse + 1 }
      else
        .fail .outOfEntries

/-- The outer `'try_subtraction` loop of `RangeSet::remove`.  The source loop
can diverge (the stale-slot split can create an entry that keeps being
rescanned), so the embedding carries fuel; `none` models divergence. -/
def removeLoop (range : Range) : Nat → RangeSet → Option (Except RsError RangeSet)
  | 0, _ => none
  | fuel + 1, rs =>
    match removeScan range rs 0 rs.inUse with
    | .done rs' => some (.ok rs')
    | .restart rs' => removeLoop range fuel rs'
    | .fail e => some (.error e)

/-- `RangeSet::remove(range)` from `src/mm/rangeset.rs` (with fuel for the
`'try_subtraction` loop; `none` models divergence). -/
def RangeSet.remove (rs : RangeSet) (range : Range) (fuel : Nat) :
    Option (Except RsError RangeSet) :=
  if range.stop < range.start then
    some (.error .invalidRange)
  else
    removeLoop range fuel rs

/-- Population count by halving; structurally recursive on a fuel that only
needs to exceed the bit length (`n` itself always does). -/
def countOnesAux : Nat → Nat → Nat
  | 0, _ => 0
  | fuel + 1, n => if n = 0 then 0 else n % 2 + countOnesAux fuel (n / 2)

/-- `u64::count_ones()` (population count), used by the alignment guard of
`RangeSet::allocate_prefer`. -/
def countOnes (n : Nat) : Nat := countOnesAux n n

/-- The preferred-region test of `RangeSet::allocate_prefer`: for the free
entry `ent`, scan the preferred regions in order and return the first
`(align_overlap, overlap_alc_end)` whose aligned allocation fits entirely
inside the overlap of `ent` with that region.  `align_overlap` is
`overlap.start.wrapping_add(alignmask) & !alignmask`, the bitwise complement
`!alignmask` being `U64MAX - alignmask`. -/
def prefFit (regions : Option RangeSet) (size align alignmask : Nat) (ent : Range) :
    Option (Nat × Nat) :=
  match regions with
  | none => none
  | some region =>
    region.entries.findSome? fun reg =>
      match overlapsR ent reg with
      | none => none
      | some ov =>
        let align_overlap := ((ov.start + alignmask) % U64) &&& (U64MAX - alignmask)
        if align_overlap ≥ ov.start ∧ align_overlap ≤ ov.stop ∧
            ov.stop - align_overlap ≥ size - 1 then
          some (align_overlap, align_overlap + (size - 1))
        else
          none

/-- The entry scan (`'allocation_search`) of `RangeSet::allocate_prefer`,
carrying the best `allocation = (base, end, ptr)` found so far.  The
front-padding is `align_fix = (align - (ent.start & alignmask)) & alignmask`;
an entry is skipped when `base + (size-1) + align_fix` overflows `u64`
(the source's two `checked_add`s fail exactly when the total exceeds
`u64::MAX`, since the padding is non-negative) or lands past `ent.end`.
A preferred fit returns immediately (`break 'allocation_search`); otherwise
the candidate replaces the running one when it is strictly smaller in
`end - base`. -/
def allocScan (size align alignmask : Nat) (regions : Option RangeSet) :
    List Range → Option (Nat × Nat × Nat) → Option (Nat × Nat × Nat)
  | [], allocation => allocation
  | ent :: rest, allocation =>
    let align_fix := (align - (ent.start &&& alignmask)) &&& alignmask
    let base := ent.start
    if base + (size - 1) + align_fix ≥ U64 then
      allocScan size align alignmask regions rest allocation
    else
      let stop := base + (size - 1) + align_fix
      if stop > ent.stop then
        allocScan size align alignmask regions rest allocation
      else
        match prefFit regions size align alignmask ent with
        | some (ao, ae) => some (ao, ae, ao)
        | none =>
          match allocation with
          | none =>
            allocScan size align alignmask regions rest (some (base, stop, base + align_fix))
          | some (pb, pe, pp) =>
            if pe - pb > stop - base then
              allocScan size align alignmask regions rest (some (base, stop, base + align_fix))
            else
              allocScan size align alignmask regions rest (some (pb, pe, pp))

/-- `RangeSet::allocate_prefer(size, align, regions)` from
`src/mm/rangeset.rs` (fuel is for the final `remove` of the chosen range;
`none` models divergence of that remove). -/
def RangeSet.allocatePrefer (rs : RangeSet) (size align : Nat)
    (regions : Option RangeSet) (fuel : Nat) : Option (Except RsError (Nat × RangeSet)) :=
  if size = 0 then
    some (.error .zeroSizeAllocation)
  else if countOnes align ≠ 1 then
    some (.error .invalidAlignment)
  else
    let alignmask := align - 1
    match allocScan size align alignmask regions rs.entries none with
    | some (base, stop, ptr) =>
      match rs.remove ⟨base, stop⟩ fuel with
      | none => none
      | some (.ok rs') => some (.ok (ptr, rs'))
      | some (.error e) => some (.error e)
    | none => some (.error .outOfMemory)

/-- `RangeSet::allocate(size, align) = allocate_prefer(size, align, None)`. -/
def RangeSet.allocate (rs : RangeSet) (size align : Nat) (fuel : Nat) :
    Option (Except RsError (Nat × RangeSet)) :=
  rs.allocatePrefer size align none fuel

/-! Embedding of `src/mm.rs`: the physical-memory cursor.  Physical memory
itself is a parameter `mem : Nat → Nat`; a byte read at address `a` is
`mem a % 256`. -/

/-- A byte of physical memory. -/
def byteAt (mem : Nat → Nat) (a : Nat) : Nat := mem a % 256

/-- `read_phys_unaligned::<T>` for a `T` of `n` bytes: the little-endian
value of the `n` bytes at `addr`. -/
def readLE (mem : Nat → Nat) (addr : Nat) : Nat → Nat
  | 0 => 0
  | n + 1 => byteAt mem addr + 256 * readLE mem (addr + 1) n

/-- `PhysSlice(PhysAddr, usize)` from `src/mm.rs`: a consumable cursor over
physical memory. -/
structure PhysSlice where
  addr : Nat
  len : Nat
deriving DecidableEq, Repr

/-- `PhysSlice::discard(bytes)`: advance the cursor without reading.  The
source mutates `&mut self` and returns `Result<(), ()>`; the model returns
the result together with the updated cursor (unchanged on error).  The
address bump `(self.0).0 += bytes as u64` is `u64` (wrapping) addition. -/
def PhysSlice.discard (s : PhysSlice) (bytes : Nat) : Except Unit Unit × PhysSlice :=
  if s.len ≥ bytes then
    (.ok (), ⟨(s.addr + bytes) % U64, s.len - bytes⟩)
  else
    (.error (), s)

/-- `PhysSlice::consume::<T>()` for a `T` of `tsize` bytes: fail if fewer
than `tsize` bytes remain, otherwise read an unaligned `T` at the cursor and
advance. -/
def PhysSlice.consume (mem : Nat → Nat) (s : PhysSlice) (tsize : Nat) :
    Except Unit Nat × PhysSlice :=
  if s.len < tsize then
    (.error (), s)
  else
    (.ok (readLE mem s.addr tsize), ⟨(s.addr + tsize) % U64, s.len - tsize⟩)

/-! Embedding of `src/acpi.rs`. -/

/-- `TableType` from `src/acpi.rs`; `unknown` carries the four raw signature
bytes. -/
inductive TableType where
  | rsdp
  | rsdpExtended
  | xsdt
  | madt
  | srat
  | unknown (b0 b1 b2 b3 : Nat)
deriving DecidableEq, Repr

/-- `impl From<[u8; 4]> for TableType`: `"XSDT"`, `"APIC"`, `"SRAT"` (ASCII
bytes) map to their table types, anything else to `unknown`. -/
def tableTypeOf (b0 b1 b2 b3 : Nat) : TableType :=
  if b0 = 88 ∧ b1 = 83 ∧ b2 = 68 ∧ b3 = 84 then .xsdt
  else if b0 = 65 ∧ b1 = 80 ∧ b2 = 73 ∧ b3 = 67 then .madt
  else if b0 = 83 ∧ b1 = 82 ∧ b2 = 65 ∧ b3 = 84 then .srat
  else .unknown b0 b1 b2 b3

/-- `acpi::Error` from `src/acpi.rs`. -/
inductive AcpiError where
  | rsdpNotFound
  | checksumMismatch (t : TableType)
  | signatureMismatch (t : TableType)
  | lengthMismatch (t : TableType)
  | revisionTooOld
  | xsdtBadEntries
  | integerOverflow
deriving DecidableEq, Repr

/-- The `try_fold` of `acpi::checksum`: wrapping 8-bit sum of `n` bytes at
`addr + offset, …`, with each address formed by `checked_add` (failing with
`IntegerOverflow` past `u64::MAX`). -/
def checksumAux (mem : Nat → Nat) (addr : Nat) : Nat → Nat → Nat → Except AcpiError Nat
  | 0, _, acc => .ok acc
  | n + 1, offset, acc =>
    if addr + offset < U64 then
      checksumAux mem addr n (offset + 1) ((acc + byteAt mem (addr + offset)) % 256)
    else
      .error .integerOverflow

/-- `acpi::checksum(addr, size, typ)`: succeeds iff the wrapping byte sum of
`size` bytes at `addr` is zero. -/
def checksum (mem : Nat → Nat) (addr size : Nat) (typ : TableType) :
    Except AcpiError Unit :=
  match checksumAux mem addr size 0 0 with
  | .error e => .error e
  | .ok chk => if chk = 0 then .ok () else .error (.checksumMismatch typ)

/-- The 20-byte ACPI 1.0 `Rsdp` structure (fields as read by
`read_phys::<Rsdp>`, little-endian, packed). -/
structure Rsdp where
  signature : List Nat
  checksum : Nat
  oemId : List Nat
  revision : Nat
  rsdtAddr : Nat
deriving DecidableEq, Repr

/-- Field-wise packed read of an `Rsdp` at `addr`. -/
def readRsdp (mem : Nat → Nat) (addr : Nat) : Rsdp :=
  { signature := (List.range 8).map fun i => byteAt mem (addr + i)
    checksum := byteAt mem (addr + 8)
    oemId := (List.range 6).map fun i => byteAt mem (addr + 9 + i)
    revision := byteAt mem (addr + 15)
    rsdtAddr := readLE mem (addr + 16) 4 }

/-- The ASCII bytes of `"RSD PTR "`. -/
def rsdSignature : List Nat := [82, 83, 68, 32, 80, 84, 82, 32]

/-- `Rsdp::from_addr`: checksum the 20 bytes, read the structure, check the
signature. -/
def rsdpFromAddr (mem : Nat → Nat) (addr : Nat) : Except AcpiError Rsdp :=
  match checksum mem addr 20 .rsdp with
  | .error e => .error e
  | .ok _ =>
    let rsdp := readRsdp mem addr
    if rsdp.signature = rsdSignature then .ok rsdp
    else .error (.signatureMismatch .rsdp)

/-- The 36-byte extended RSDP (`RsdpExtended`). -/
structure RsdpExtended where
  base : Rsdp
  length : Nat
  xsdtAddr : Nat
  extendedChecksum : Nat
  reserved : List Nat
deriving DecidableEq, Repr

/-- Field-wise packed read of an `RsdpExtended` at `addr`. -/
def readRsdpExtended (mem : Nat → Nat) (addr : Nat) : RsdpExtended :=
  { base := readRsdp mem addr
    length := readLE mem (addr + 20) 4
    xsdtAddr := readLE mem (addr + 24) 8
    extendedChecksum := byteAt mem (addr + 32)
    reserved := (List.range 3).map fun i => byteAt mem (addr + 33 + i) }

/-- `RsdpExtended::from_addr`: validate the 1.0 part, require revision ≥ 2,
checksum all 36 bytes, require `length` to equal the structure size. -/
def rsdpExtendedFromAddr (mem : Nat → Nat) (addr : Nat) : Except AcpiError RsdpExtended :=
  match rsdpFromAddr mem addr with
  | .error e => .error e
  | .ok rsdp =>
    if rsdp.revision < 2 then .error .revisionTooOld
    else
      match checksum mem addr 36 .rsdpExtended with
      | .error e => .error e
      | .ok _ =>
        let ext := readRsdpExtended mem addr
        if ext.length ≠ 36 then .error (.lengthMismatch .rsdpExtended)
        else .ok ext

/-- The 36-byte generic ACPI table header (`Table`). -/
structure Table where
  b0 : Nat
  b1 : Nat
  b2 : Nat
  b3 : Nat
  length : Nat
  revision : Nat
  checksum : Nat
  oemid : List Nat
  oemTableId : Nat
  oemRevision : Nat
  creatorId : Nat
  creatorRevision : Nat
deriving DecidableEq, Repr

/-- Field-wise packed read of a `Table` header at `addr` (signature bytes at
offsets 0–3, `length` at 4, `revision` at 8, `checksum` at 9, OEM id at
10–15, OEM table id at 16–23, OEM revision at 24, creator id at 28, creator
revision at 32). -/
def readTable (mem : Nat → Nat) (addr : Nat) : Table :=
  { b0 := byteAt mem addr
    b1 := byteAt mem (addr + 1)
    b2 := byteAt mem (addr + 2)
    b3 := byteAt mem (addr + 3)
    length := readLE mem (addr + 4) 4
    revision := byteAt mem (addr + 8)
    checksum := byteAt mem (addr + 9)
    oemid := (List.range 6).map fun i => byteAt mem (addr + 10 + i)
    oemTableId := readLE mem (addr + 16) 8
    oemRevision := readLE mem (addr + 24) 4
    creatorId := readLE mem (addr + 28) 4
    creatorRevision := readLE mem (addr + 32) 4 }

/-- `Table::from_addr`: read the header, derive the type from the signature,
checksum the full declared `length` bytes, then compute the payload address
(`checked_add` of the 36-byte header size) and the payload size
(`checked_sub`, failing with `LengthMismatch` when `length` is smaller than
the header). -/
def tableFromAddr (mem : Nat → Nat) (addr : Nat) :
    Except AcpiError (Table × TableType × Nat × Nat) :=
  let table := readTable mem addr
  let typ := tableTypeOf table.b0 table.b1 table.b2 table.b3
  match checksum mem addr table.length typ with
  | .error e => .error e
  | .ok _ =>
    if addr + 36 < U64 then
      if 36 ≤ table.length then
        .ok (table, typ, addr + 36, table.length - 36)
      else
        .error (.lengthMismatch typ)
    else
      .error .integerOverflow

/-- Outcome of a call that, in the source, returns `Result<_, acpi::Error>`
but may also hit the `panic!()` at the end of `Madt::from_addr`. -/
inductive MOutcome where
  | ok
  | err (e : AcpiError)
  | panicked
deriving DecidableEq, Repr

/-- A successful `consume` shrinks the remaining length by exactly the read
size (and implies the read fitted). -/
theorem consume_ok_len {mem : Nat → Nat} {s : PhysSlice} {t v : Nat} {s' : PhysSlice}
    (h : PhysSlice.consume mem s t = (.ok v, s')) : s'.len = s.len - t ∧ t ≤ s.len := by
  unfold PhysSlice.consume at h
  split at h
  · exact absurd h (by simp)
  · rename_i hfit
    cases h
    exact ⟨rfl, by omega⟩

/-- `consume` never grows the remaining length. -/
theorem consume_snd_len_le (mem : Nat → Nat) (s : PhysSlice) (t : Nat) :
    (PhysSlice.consume mem s t).2.len ≤ s.len := by
  unfold PhysSlice.consume
  split <;> simp

/-- A successful `discard` shrinks the remaining length by exactly the
discarded count. -/
theorem discard_ok_len {s : PhysSlice} {b : Nat} {u : Unit} {s' : PhysSlice}
    (h : PhysSlice.discard s b = (.ok u, s')) : s'.len = s.len - b ∧ b ≤ s.len := by
  unfold PhysSlice.discard at h
  split at h
  · rename_i hfit
    cases h
    exact ⟨rfl, by omega⟩
  · exact absurd h (by simp)

/-- The `while slice.len() > 0` loop of `Madt::from_addr` over the ICS
record stream.  Each iteration consumes a `type` byte and a `length` byte
(any consume failure is mapped to `LengthMismatch(Madt)` and returned),
requires `length ≥ 2` (`checked_sub(2)`), and dispatches: type 0 requires a
6-byte body, type 9 a 14-byte body — for both, the body `consume` result is
*discarded without `?`*, so a failed body read is silently ignored and the
loop continues — and any other type `discard`s the body, propagating the
error.  When the loop exits (no bytes left) the source hits `panic!()`.
Every iteration shrinks the slice by at least one byte, so the loop is
structured on a fuel that only needs to exceed the slice length; the
out-of-fuel answer (arbitrarily `err`) is never produced for the fuel
`madtFromAddr` passes. -/
def madtLoop (mem : Nat → Nat) : Nat → PhysSlice → MOutcome
  | 0, _ => .err (.lengthMismatch .madt)
  | fuel + 1, s =>
    if s.len = 0 then
      .panicked
    else
      match PhysSlice.consume mem s 1 with
      | (.error _, _) => .err (.lengthMismatch .madt)
      | (.ok typ, s1) =>
        match PhysSlice.consume mem s1 1 with
        | (.error _, _) => .err (.lengthMismatch .madt)
        | (.ok lenByte, s2) =>
          if lenByte < 2 then
            .err (.lengthMismatch .madt)
          else
            let len := lenByte - 2
            if typ = 0 then
              if len ≠ 6 then .err (.lengthMismatch .madt)
              else madtLoop mem fuel (PhysSlice.consume mem s2 6).2
            else if typ = 9 then
              if len ≠ 14 then .err (.lengthMismatch .madt)
              else madtLoop mem fuel (PhysSlice.consume mem s2 14).2
            else
              match PhysSlice.discard s2 len with
              | (.ok _, s3) => madtLoop mem fuel s3
              | (.error _, _) => .err (.lengthMismatch .madt)

/-- `Madt::from_addr(addr, size)`: make a `PhysSlice`, consume the 4-byte
local-APIC address and 4-byte flags (errors mapped to
`LengthMismatch(Madt)`), then walk the ICS records; the fuel `size + 1`
strictly bounds the loop iteration count. -/
def madtFromAddr (mem : Nat → Nat) (addr size : Nat) : MOutcome :=
  let slice : PhysSlice := ⟨addr, size⟩
  match PhysSlice.consume mem slice 4 with
  | (.error _, _) => .err (.lengthMismatch .madt)
  | (.ok _, s1) =>
    match PhysSlice.consume mem s1 4 with
    | (.error _, _) => .err (.lengthMismatch .madt)
    | (.ok _, s2) => madtLoop mem (size + 1) s2

/-- The per-entry dispatch of `acpi::init`: the `match typ` sends `Madt` to
`Madt::from_addr(data, length)`; every other signature falls into the
`_ => {}` arm and is silently skipped. -/
def dispatchTable (mem : Nat → Nat) (typ : TableType) (data length : Nat) : MOutcome :=
  match typ with
  | .madt => madtFromAddr mem data length
  | _ => .ok

/-- The `for idx in 0..entries` loop of `acpi::init`: form each XSDT entry
address with `checked_mul`/`checked_add` (both fail exactly when the total
exceeds `u64::MAX`), read the unaligned 64-bit table address, validate its
header, and dispatch by type.
The loop counter `idx` runs up to `entries`; the recursion is structured on
the remaining count `rem = entries - idx` (the walk starts with
`initLoop mem xsdt 0 entries`). -/
def initLoop (mem : Nat → Nat) (xsdt : Nat) : Nat → Nat → MOutcome
  | _, 0 => .ok
  | idx, rem + 1 =>
    if idx * 8 + xsdt < U64 then
      let tableAddr := readLE mem (idx * 8 + xsdt) 8
      match tableFromAddr mem tableAddr with
      | .error e => .err e
      | .ok (_, typ, data, length) =>
        match dispatchTable mem typ data length with
        | .ok => initLoop mem xsdt (idx + 1) rem
        | out => out
    else
      .err .integerOverflow

/-- `acpi::init()`: get the RSDP address from EFI (modelled as an `Option`
parameter), validate the extended RSDP, validate the XSDT header (type must
be `Xsdt`, payload length a multiple of 8), and walk the XSDT entries. -/
def acpiInit (mem : Nat → Nat) (acpiTableAddr : Option Nat) : MOutcome :=
  match acpiTableAddr with
  | none => .err .rsdpNotFound
  | some rsdpAddr =>
    match rsdpExtendedFromAddr mem rsdpAddr with
    | .error e => .err e
    | .ok rsdp =>
      match tableFromAddr mem rsdp.xsdtAddr with
      | .error e => .err e
      | .ok (_, typ, xsdt, length) =>
        if typ ≠ .xsdt then .err (.signatureMismatch typ)
        else if length % 8 ≠ 0 then .err .xsdtBadEntries
        else initLoop mem xsdt 0 (length / 8)

/-! Concrete artifacts and claim theorems. -/

/-- The pairwise condition of claim C1: entries `x = [a,b]` and `y = [c,d]`
are clear of each other when NOT (`b+1 ≥ c` and `a ≤ d+1`), with saturating
`+1` as in the insert merge test. -/
def pairClear (x y : Range) : Bool :=
  !(decide (satAdd1 x.stop ≥ y.start ∧ x.start ≤ satAdd1 y.stop))

/-- All entries of a list pairwise clear of each other (claim C1's
invariant, as a decidable check). -/
def allClear : List Range → Bool
  | [] => true
  | x :: xs => xs.all (pairClear x) && allClear xs

/-- A sequence of valid, succeeding `insert`/`remove` calls on a fresh
`RangeSet`: insert `[0,10]`, `[20,30]`, `[1000,2000]`, then `[11,19]`
(which merges the first two, parking the stale copies `[0,10]` and `[20,30]`
in slots 2 and 1), then remove `[1500,1600]` (which splits `[1000,2000]`
and reads the tail's `start` from the stale slot 2). -/
def c1Trace : Option RangeSet :=
  match RangeSet.new.insert ⟨0, 10⟩ with
  | .ok r1 =>
    match r1.insert ⟨20, 30⟩ with
    | .ok r2 =>
      match r2.insert ⟨1000, 2000⟩ with
      | .ok r3 =>
        match r3.insert ⟨11, 19⟩ with
        | .ok r4 =>
          match r4.remove ⟨1500, 1600⟩ 10 with
          | some (.ok r5) => some r5
          | _ => none
        | _ => none
      | _ => none
    | _ => none
  | _ => none

/-- C1: FALSE of the code (code bug).  The claim says that after any
sequence of valid, succeeding inserts and removes the entries are pairwise
non-overlapping and non-adjacent.  The `c1Trace` sequence succeeds at every
step, yet its final entries are `[1601,2000]`, `[0,30]`, `[0,1499]` —
`[0,30]` and `[0,1499]` overlap, because the split case of `remove` builds
the tail entry's `start` from the stale contents of the spare slot (the
shadowed `ent` in the source) instead of the split entry's own `start`. -/
theorem c1_remove_split_breaks_disjointness :
    c1Trace.map RangeSet.entries =
      some [⟨1601, 2000⟩, ⟨0, 30⟩, ⟨0, 1499⟩] ∧
    c1Trace.map (fun rs => allClear rs.entries) = some false := by
  decide

/-- Insert `[10,20]` into a fresh set, then remove the strictly interior
`[13,17]` (claim C2's `[a,b] = [10,20]`, `[c,d] = [13,17]`). -/
def c2Trace : Option RangeSet :=
  match RangeSet.new.insert ⟨10, 20⟩ with
  | .ok r1 =>
    match r1.remove ⟨13, 17⟩ 10 with
    | some (.ok r2) => some r2
    | _ => none
  | _ => none

/-- C2: FALSE of the code (code bug).  The claim says a successful interior
remove of `[13,17]` from `{[10,20]}` leaves exactly `[10,12]` and
`[18,20]`.  The remove succeeds but leaves `[18,20]` and `[0,12]`: the tail
entry's `start` is read from the stale spare slot (zero-initialised here)
rather than from the original entry's `start = 10`, adding addresses
`0..=9` that were never in the set. -/
theorem c2_remove_split_tail_start_stale :
    c2Trace.map RangeSet.entries = some [⟨18, 20⟩, ⟨0, 12⟩] ∧
    c2Trace.map RangeSet.entries ≠ some [⟨18, 20⟩, ⟨10, 12⟩] := by
  decide

/-- C3: FALSE of the code (code bug).  The claim says no ACPI
validation/parsing function panics internally, but `Madt::from_addr` ends
in `panic!()`: any MADT payload whose ICS walk completes — here the minimal
8-byte payload (local-APIC address and flags, empty record stream) — panics
instead of returning. -/
theorem c3_madt_clean_walk_panics :
    madtFromAddr (fun _ => 0) 0 8 = MOutcome.panicked := by
  decide

/-- A 10-byte MADT payload: 8 header bytes, then a record with type `0xAA`
and declared length `5`, whose body would need 3 more bytes that are not
there (truncated mid-record). -/
def madtTruncMem : Nat → Nat :=
  fun a => if a = 8 then 170 else if a = 9 then 5 else 0

/-- C4 counterexample: the claim says a MADT stream truncated mid-record
(declared length exceeding the remaining bytes) makes the parser stop and
return success.  On `madtTruncMem` the record's declared length 5 exceeds
the 2 remaining bytes and the parser returns `LengthMismatch(Madt)` — an
error, not success. -/
theorem c4_truncated_record_errors_not_ok :
    madtFromAddr madtTruncMem 0 10 = .err (.lengthMismatch .madt) ∧
    madtFromAddr madtTruncMem 0 10 ≠ .ok := by
  decide

/-- C4 amended: when the truncation is visible to the record loop, the MADT
parser reports `LengthMismatch(Madt)` instead of returning success: a single
byte left at a record boundary fails the `length`-byte consume, and an
unknown-type record whose declared length `l` exceeds the remaining bytes
fails the body `discard`.  (For types 0/9 with matching declared length the
body-read failure is silently ignored, and a clean end of stream panics —
the parser never returns success.) -/
theorem c4_truncation_reports_length_mismatch (mem : Nat → Nat) (fuel : Nat)
    (s : PhysSlice) (t l : Nat) :
    (s.len = 1 → madtLoop mem (fuel + 1) s = .err (.lengthMismatch .madt)) ∧
    (2 ≤ s.len → byteAt mem s.addr = t → t ≠ 0 → t ≠ 9 →
      byteAt mem ((s.addr + 1) % U64) = l → 2 ≤ l → s.len < l →
      madtLoop mem (fuel + 1) s = .err (.lengthMismatch .madt)) := by
  constructor
  · intro h1
    have hc1 : PhysSlice.consume mem s 1 =
        (.ok (readLE mem s.addr 1), ⟨(s.addr + 1) % U64, s.len - 1⟩) := by
      unfold PhysSlice.consume
      rw [if_neg (by omega)]
    unfold madtLoop
    rw [if_neg (by omega), hc1]
    dsimp only
    have hc2 : PhysSlice.consume mem ⟨(s.addr + 1) % U64, s.len - 1⟩ 1 =
        (.error (), ⟨(s.addr + 1) % U64, s.len - 1⟩) := by
      unfold PhysSlice.consume
      rw [if_pos (show (⟨(s.addr + 1) % U64, s.len - 1⟩ : PhysSlice).len < 1 by
        dsimp only
        omega)]
    rw [hc2]
  · intro h2 ht ht0 ht9 hl hl2 hlen
    have hc1 : PhysSlice.consume mem s 1 =
        (.ok t, ⟨(s.addr + 1) % U64, s.len - 1⟩) := by
      unfold PhysSlice.consume
      rw [if_neg (by omega)]
      simp [readLE, ht]
    have hc2 : PhysSlice.consume mem ⟨(s.addr + 1) % U64, s.len - 1⟩ 1 =
        (.ok l, ⟨((s.addr + 1) % U64 + 1) % U64, s.len - 1 - 1⟩) := by
      unfold PhysSlice.consume
      rw [if_neg (show ¬(⟨(s.addr + 1) % U64, s.len - 1⟩ : PhysSlice).len < 1 by
        dsimp only
        omega)]
      simp [readLE, hl]
    have hd : PhysSlice.discard ⟨((s.addr + 1) % U64 + 1) % U64, s.len - 1 - 1⟩ (l - 2) =
        (.error (), ⟨((s.addr + 1) % U64 + 1) % U64, s.len - 1 - 1⟩) := by
      unfold PhysSlice.discard
      rw [if_neg (show ¬(⟨((s.addr + 1) % U64 + 1) % U64, s.len - 1 - 1⟩ : PhysSlice).len ≥ l - 2 by
        dsimp only
        omega)]
    unfold madtLoop
    rw [if_neg (by omega), hc1]
    dsimp only
    rw [hc2]
    dsimp only
    rw [if_neg (by omega), if_neg ht0, if_neg ht9, hd]

/-- Witness for `c4_truncation_reports_length_mismatch`: a lone byte at a
record boundary, and the truncated type-`0xAA` record of `madtTruncMem`. -/
theorem c4_truncation_reports_length_mismatch_witness :
    madtLoop (fun _ => 0) 1 ⟨0, 1⟩ = .err (.lengthMismatch .madt) ∧
    madtLoop madtTruncMem 3 ⟨8, 2⟩ = .err (.lengthMismatch .madt) :=
  ⟨(c4_truncation_reports_length_mismatch (fun _ => 0) 0 ⟨0, 1⟩ 0 0).1 rfl,
   (c4_truncation_reports_length_mismatch madtTruncMem 2 ⟨8, 2⟩ 170 5).2
     (by decide) (by decide) (by decide) (by decide) (by decide) (by decide) (by decide)⟩

/-- C7 counterexample: the claim says SRAT tables are dispatched to an SRAT
parser that walks their record stream (only non-MADT, non-SRAT signatures
being silently skipped).  In `init`'s dispatch a `Srat` table is handled
exactly like an unknown signature: both fall into the `_ => {}` arm and
produce `ok` without reading a single byte of the table. -/
theorem c7_srat_skipped_like_unknown :
    dispatchTable (fun _ => 255) .srat 0 44 = .ok ∧
    dispatchTable (fun _ => 255) (.unknown 1 2 3 4) 0 44 = .ok := by
  decide

/-- C7 amended: `init` dispatches only `Madt` tables to a parser; `Srat`,
like every other non-MADT signature, is silently skipped and no affinity
facts are produced (there is no SRAT parser in the code). -/
theorem c7_only_madt_dispatched (mem : Nat → Nat) (typ : TableType)
    (data length : Nat) (h : typ ≠ .madt) :
    dispatchTable mem typ data length = .ok := by
  cases typ <;> first | rfl | exact absurd rfl h

/-- Witness for `c7_only_madt_dispatched` at the SRAT signature. -/
theorem c7_only_madt_dispatched_witness :
    dispatchTable (fun _ => 7) .srat 100 44 = .ok :=
  c7_only_madt_dispatched (fun _ => 7) .srat 100 44 (by decide)

/-- A generic table header at address 0 with declared `length = 20 < 36`
whose first 20 bytes sum to 21 (mod 256): the checksum is invalid. -/
def shortBadMem : Nat → Nat :=
  fun a => if a = 4 then 20 else if a = 0 then 1 else 0

/-- C8 counterexample: the claim says every header with `length < 36` fails
with `LengthMismatch`.  But `Table::from_addr` validates the checksum over
the declared `length` bytes *before* the length check, so this header
(length 20, byte sum 21) fails with `ChecksumMismatch` instead. -/
theorem c8_short_table_bad_checksum_mismatch :
    (readTable shortBadMem 0).length = 20 ∧ (20 : Nat) < 36 ∧
    tableFromAddr shortBadMem 0 = .error (.checksumMismatch (.unknown 1 0 0 0)) := by
  decide

/-- C8 amended: a header with declared `length < 36` fails with
`LengthMismatch` for the table's type *provided the preceding checks pass*:
the checksum over the declared `length` bytes (validated first) must be
zero, and forming the payload address `addr + 36` must not overflow `u64`.
Otherwise the earlier `ChecksumMismatch`/`IntegerOverflow` wins, as
`c8_short_table_bad_checksum_mismatch` shows. -/
theorem c8_short_table_length_mismatch_after_checksum (mem : Nat → Nat) (addr : Nat)
    (hlen : (readTable mem addr).length < 36)
    (hchk : checksum mem addr (readTable mem addr).length
      (tableTypeOf (readTable mem addr).b0 (readTable mem addr).b1
        (readTable mem addr).b2 (readTable mem addr).b3) = .ok ())
    (haddr : addr + 36 < U64) :
    tableFromAddr mem addr =
      .error (.lengthMismatch (tableTypeOf (readTable mem addr).b0 (readTable mem addr).b1
        (readTable mem addr).b2 (readTable mem addr).b3)) := by
  unfold tableFromAddr
  dsimp only
  rw [hchk]
  dsimp only
  rw [if_pos haddr, if_neg (by omega)]

/-- A header at address 0 with `length = 20` whose first 20 bytes sum to 0
mod 256 (`236 + 20 = 256`): the checksum passes. -/
def shortOkMem : Nat → Nat :=
  fun a => if a = 3 then 236 else if a = 4 then 20 else 0

/-- Witness for `c8_short_table_length_mismatch_after_checksum` on
`shortOkMem`. -/
theorem c8_short_table_length_mismatch_after_checksum_witness :
    tableFromAddr shortOkMem 0 =
      .error (.lengthMismatch (.unknown 0 0 0 236)) :=
  c8_short_table_length_mismatch_after_checksum shortOkMem 0
    (by decide) (by decide) (by decide)

/-- C10: the cursor operations of `PhysSlice`.  `discard(n)` with
`n > remaining` and `consume::<T>` with `size_of::<T> > remaining` fail and
leave the cursor (address and length) unchanged; on success the address
advances by exactly the consumed size (as `u64` addition, i.e. modulo
`2^64`) and the length shrinks by exactly that size. -/
theorem c10_cursor_advance_exact (mem : Nat → Nat) (s : PhysSlice) (n tsize : Nat) :
    (s.len < n → PhysSlice.discard s n = (.error (), s)) ∧
    (n ≤ s.len → PhysSlice.discard s n = (.ok (), ⟨(s.addr + n) % U64, s.len - n⟩)) ∧
    (s.len < tsize → PhysSlice.consume mem s tsize = (.error (), s)) ∧
    (tsize ≤ s.len →
      PhysSlice.consume mem s tsize =
        (.ok (readLE mem s.addr tsize), ⟨(s.addr + tsize) % U64, s.len - tsize⟩)) := by
  refine ⟨fun h => ?_, fun h => ?_, fun h => ?_, fun h => ?_⟩
  · unfold PhysSlice.discard
    rw [if_neg (by omega)]
  · unfold PhysSlice.discard
    rw [if_pos (by omega)]
  · unfold PhysSlice.consume
    rw [if_pos (by omega)]
  · unfold PhysSlice.consume
    rw [if_neg (by omega)]

/-- Witness for `c10_cursor_advance_exact`: a concrete 4-byte cursor at
address 100 — a successful 2-byte discard and a failed 8-byte consume. -/
theorem c10_cursor_advance_exact_witness :
    PhysSlice.discard ⟨100, 4⟩ 2 = (.ok (), ⟨(100 + 2) % U64, 4 - 2⟩) ∧
    PhysSlice.consume (fun _ => 0) ⟨100, 4⟩ 8 = (.error (), ⟨100, 4⟩) :=
  ⟨(c10_cursor_advance_exact (fun _ => 0) ⟨100, 4⟩ 2 8).2.1 (by decide),
   (c10_cursor_advance_exact (fun _ => 0) ⟨100, 4⟩ 2 8).2.2.1 (by decide)⟩

/-- `countOnesAux` with fuel at least `n` returns 0 only on 0. -/
theorem countOnesAux_eq_zero : ∀ (fuel n : Nat), n ≤ fuel → countOnesAux fuel n = 0 → n = 0 := by
  intro fuel
  induction fuel with
  | zero => intro n h _; omega
  | succ f ih =>
    intro n hn h
    unfold countOnesAux at h
    split at h
    · assumption
    · rename_i hne
      have h2 : n % 2 = 0 ∧ countOnesAux f (n / 2) = 0 := by omega
      have := ih (n / 2) (by omega) h2.2
      omega

/-- `countOnesAux` with fuel at least `n` returns 1 only on powers of two. -/
theorem countOnesAux_eq_one : ∀ (fuel n : Nat), n ≤ fuel → countOnesAux fuel n = 1 →
    ∃ k, n = 2 ^ k := by
  intro fuel
  induction fuel with
  | zero =>
    intro n h hh
    simp [countOnesAux] at hh
  | succ f ih =>
    intro n hn h
    unfold countOnesAux at h
    split at h
    · omega
    · rename_i hne
      rcases Nat.mod_two_eq_zero_or_one n with h2 | h2
      · have h3 : countOnesAux f (n / 2) = 1 := by omega
        obtain ⟨k, hk⟩ := ih (n / 2) (by omega) h3
        exact ⟨k + 1, by rw [pow_succ]; omega⟩
      · have h3 : countOnesAux f (n / 2) = 0 := by omega
        have := countOnesAux_eq_zero f (n / 2) (by omega) h3
        exact ⟨0, by omega⟩

/-- A number whose popcount is 1 is a power of two (the alignment guard of
`allocate_prefer` admits exactly the powers of two). -/
theorem countOnes_eq_one {n : Nat} (h : countOnes n = 1) : ∃ k, n = 2 ^ k :=
  countOnesAux_eq_one n n (Nat.le_refl n) h

/-- The front padding `(align - (s & alignmask)) & alignmask` rounds `s` up
to a multiple of `align = 2^k`. -/
theorem align_fix_dvd (k s : Nat) :
    (2 ^ k) ∣ (s + ((2 ^ k - (s &&& (2 ^ k - 1))) &&& (2 ^ k - 1))) := by
  have ha : 0 < 2 ^ k := Nat.two_pow_pos k
  rw [Nat.and_pow_two_sub_one_eq_mod, Nat.and_pow_two_sub_one_eq_mod]
  rcases Nat.eq_zero_or_pos (s % 2 ^ k) with h0 | hpos
  · rw [h0, Nat.sub_zero, Nat.mod_self, Nat.add_zero]
    exact Nat.dvd_of_mod_eq_zero h0
  · have hlt : s % 2 ^ k < 2 ^ k := Nat.mod_lt _ ha
    rw [Nat.mod_eq_of_lt (by omega)]
    have hdm := Nat.div_add_mod s (2 ^ k)
    refine ⟨s / 2 ^ k + 1, ?_⟩
    rw [Nat.mul_add, Nat.mul_one]
    omega

/-- Masking with the complement `!alignmask = U64MAX - (align - 1)` yields a
multiple of `align = 2^k`. -/
theorem and_compl_dvd (k y : Nat) : (2 ^ k) ∣ (y &&& (U64MAX - (2 ^ k - 1))) := by
  have hz : (y &&& (U64MAX - (2 ^ k - 1))) % 2 ^ k = 0 := by
    rw [← Nat.and_pow_two_sub_one_eq_mod, Nat.and_assoc]
    have hc : (U64MAX - (2 ^ k - 1)) &&& (2 ^ k - 1) = (U64MAX - (2 ^ k - 1)) % 2 ^ k :=
      Nat.and_pow_two_sub_one_eq_mod _ _
    rw [hc]
    rcases Nat.le_total (2 ^ k) (2 ^ 64) with hk | hk
    · have h64 : (2 : Nat) ^ 64 = 2 ^ k * 2 ^ (64 - k) := by
        rw [← pow_add]
        congr 1
        have : k ≤ 64 := by
          by_contra hgt
          have : (2 : Nat) ^ 64 < 2 ^ k := Nat.pow_lt_pow_right (by omega) (by omega)
          omega
        omega
      have hcc : U64MAX - (2 ^ k - 1) = 2 ^ k * (2 ^ (64 - k) - 1) := by
        rw [Nat.mul_sub_left_distrib, Nat.mul_one]
        simp only [U64MAX, U64]
        omega
      rw [hcc, Nat.mul_mod_right]
      simp
    · have hcc : U64MAX - (2 ^ k - 1) = 0 := by
        simp only [U64MAX, U64]
        omega
      rw [hcc]
      simp
  exact Nat.dvd_of_mod_eq_zero hz

/-- Any preferred-fit base address is a multiple of the (power-of-two)
alignment. -/
theorem prefFit_fst_dvd (regions : Option RangeSet) (size k : Nat) (ent : Range)
    (ao ae : Nat) (h : prefFit regions size (2 ^ k) (2 ^ k - 1) ent = some (ao, ae)) :
    (2 ^ k) ∣ ao := by
  unfold prefFit at h
  match regions with
  | none => simp at h
  | some region =>
    obtain ⟨reg, hmem, hreg⟩ := List.exists_of_findSome?_eq_some h
    split at hreg
    · simp at hreg
    · rename_i ov hov
      dsimp only at hreg
      split at hreg
      · rename_i hcond
        have := hreg
        simp only [Option.some.injEq, Prod.mk.injEq] at this
        rw [← this.1]
        exact and_compl_dvd k ((ov.start + (2 ^ k - 1)) % U64)
      · simp at hreg

/-- Along the allocation scan with a power-of-two alignment, any produced
base pointer is aligned, provided the accumulator’s is. -/
theorem allocScan_ptr_dvd (size k : Nat) (regions : Option RangeSet) :
    ∀ (l : List Range) (acc : Option (Nat × Nat × Nat)),
      (∀ b e p, acc = some (b, e, p) → (2 ^ k) ∣ p) →
      ∀ B E P, allocScan size (2 ^ k) (2 ^ k - 1) regions l acc = some (B, E, P) →
        (2 ^ k) ∣ P := by
  intro l
  induction l with
  | nil =>
    intro acc hacc B E P h
    exact hacc B E P h
  | cons ent rest ih =>
    intro acc hacc B E P h
    rw [allocScan] at h
    dsimp only at h
    split at h
    · exact ih acc hacc B E P h
    · split at h
      · exact ih acc hacc B E P h
      · split at h
        · rename_i pp ao ae hpf
          simp only [Option.some.injEq, Prod.mk.injEq] at h
          rw [← h.2.2]
          exact prefFit_fst_dvd regions size k ent ao ae hpf
        · rename_i hpf
          split at h
          · refine ih _ ?_ B E P h
            intro b e p hbep
            simp only [Option.some.injEq, Prod.mk.injEq] at hbep
            rw [← hbep.2.2]
            exact align_fix_dvd k ent.start
          · split at h
            · refine ih _ ?_ B E P h
              intro b e p hbep
              simp only [Option.some.injEq, Prod.mk.injEq] at hbep
              rw [← hbep.2.2]
              exact align_fix_dvd k ent.start
            · refine ih _ ?_ B E P h
              intro b e p hbep
              rename_i pb pe pp _
              simp only [Option.some.injEq, Prod.mk.injEq] at hbep
              rw [← hbep.2.2]
              exact hacc pb pe pp rfl

/-- C9: every successful `allocate_prefer` (hence every successful
`allocate`) returns a base address that is a multiple of the requested
alignment, on both the preferred-region path (`align_overlap` is produced
by rounding up with `& !alignmask`) and the fallback path (`base +
align_fix` with the computed front padding). -/
theorem c9_allocate_returns_aligned (rs : RangeSet) (size align : Nat)
    (regions : Option RangeSet) (fuel ptr : Nat) (rs' : RangeSet)
    (h : rs.allocatePrefer size align regions fuel = some (.ok (ptr, rs'))) :
    ptr % align = 0 := by
  unfold RangeSet.allocatePrefer at h
  split at h
  · simp at h
  · split at h
    · simp at h
    · rename_i hsz hcnt
      have hone : countOnes align = 1 := not_not.mp hcnt
      obtain ⟨k, rfl⟩ := countOnes_eq_one hone
      dsimp only at h
      split at h
      · rename_i base stop ptr2 hscan
        have hdvd : (2 ^ k) ∣ ptr2 := by
          refine allocScan_ptr_dvd size k regions rs.entries none ?_ base stop ptr2 hscan
          intro b e p hbep
          simp at hbep
        split at h
        · simp at h
        · rename_i rs2 hrem
          simp only [Option.some.injEq, Except.ok.injEq, Prod.mk.injEq] at h
          rw [← h.1]
          exact Nat.mod_eq_zero_of_dvd hdvd
        · simp at h
      · simp at h

/-- The range set `{[0,15]}` (built by inserting `[0,15]` into a fresh
set). -/
def rs015 : RangeSet := ⟨⟨0, 15⟩ :: List.replicate 255 ⟨0, 0⟩, 1⟩

/-- Witness for `c9_allocate_returns_aligned`: `allocate(16, 16)` on
`{[0,15]}` succeeds with base 0, and 0 is a multiple of 16. -/
theorem c9_allocate_returns_aligned_witness : (0 : Nat) % 16 = 0 :=
  c9_allocate_returns_aligned rs015 16 16 none 10 0
    ⟨⟨0, 15⟩ :: List.replicate 255 ⟨0, 0⟩, 0⟩ (by decide)


/-- One non-preferred step of the allocation scan, as a fold step. -/
def allocStep (size align alignmask : Nat) (acc : Option (Nat × Nat × Nat)) (ent : Range) :
    Option (Nat × Nat × Nat) :=
  let align_fix := (align - (ent.start &&& alignmask)) &&& alignmask
  let base := ent.start
  if base + (size - 1) + align_fix ≥ U64 then acc
  else
    let stop := base + (size - 1) + align_fix
    if stop > ent.stop then acc
    else
      match acc with
      | none => some (base, stop, base + align_fix)
      | some (pb, pe, pp) =>
        if pe - pb > stop - base then some (base, stop, base + align_fix)
        else some (pb, pe, pp)

/-- The fit test of the scan: the from-start aligned allocation neither
overflows `u64` nor runs past the entry's end. -/
def fitsB (size align alignmask : Nat) (e : Range) : Bool :=
  decide (e.start + (size - 1) + ((align - (e.start &&& alignmask)) &&& alignmask) < U64 ∧
    e.start + (size - 1) + ((align - (e.start &&& alignmask)) &&& alignmask) ≤ e.stop)

/-- The `end - base` span of the candidate built from entry `e`: front
padding plus `size - 1`. -/
def spanOf (size align alignmask : Nat) (e : Range) : Nat :=
  (size - 1) + ((align - (e.start &&& alignmask)) &&& alignmask)

/-- The `(base, end, ptr)` candidate the scan builds from entry `e`. -/
def candOf (size align alignmask : Nat) (e : Range) : Nat × Nat × Nat :=
  (e.start, e.start + (size - 1) + ((align - (e.start &&& alignmask)) &&& alignmask),
   e.start + ((align - (e.start &&& alignmask)) &&& alignmask))

/-- The `end - base` span of a candidate triple. -/
def cspan (c : Nat × Nat × Nat) : Nat := c.2.1 - c.1

theorem cspan_candOf (size align alignmask : Nat) (e : Range) :
    cspan (candOf size align alignmask e) = spanOf size align alignmask e := by
  unfold cspan candOf spanOf
  dsimp only
  omega

theorem allocStep_not_fits {size align alignmask : Nat} {e : Range}
    (h : fitsB size align alignmask e = false) (acc : Option (Nat × Nat × Nat)) :
    allocStep size align alignmask acc e = acc := by
  unfold fitsB at h
  simp only [decide_eq_false_iff_not, not_and] at h
  unfold allocStep
  dsimp only
  by_cases h1 : e.start + (size - 1) + ((align - (e.start &&& alignmask)) &&& alignmask) ≥ U64
  · rw [if_pos h1]
  · rw [if_neg h1, if_pos (by omega)]

theorem allocStep_fits {size align alignmask : Nat} {e : Range}
    (h : fitsB size align alignmask e = true) (acc : Option (Nat × Nat × Nat)) :
    allocStep size align alignmask acc e =
      match acc with
      | none => some (candOf size align alignmask e)
      | some c0 =>
        if cspan c0 > spanOf size align alignmask e then some (candOf size align alignmask e)
        else some c0 := by
  unfold fitsB at h
  simp only [decide_eq_true_eq] at h
  unfold allocStep candOf cspan spanOf
  dsimp only
  rw [if_neg (by omega), if_neg (by omega)]
  cases acc with
  | none => rfl
  | some c0 =>
    obtain ⟨pb, pe, pp⟩ := c0
    dsimp only
    by_cases hcmp : pe - pb > e.start + (size - 1) +
        ((align - (e.start &&& alignmask)) &&& alignmask) - e.start
    · rw [if_pos hcmp, if_pos (by omega)]
    · rw [if_neg hcmp, if_neg (by omega)]


/-- When no entry has a preferred fit, the scan is the plain fold of
`allocStep`. -/
theorem allocScan_noPref (size align alignmask : Nat) (regions : Option RangeSet) :
    ∀ (l : List Range) (acc : Option (Nat × Nat × Nat)),
      (∀ e ∈ l, prefFit regions size align alignmask e = none) →
      allocScan size align alignmask regions l acc =
        List.foldl (allocStep size align alignmask) acc l := by
  intro l
  induction l with
  | nil => intro acc h; rfl
  | cons ent rest ih =>
    intro acc h
    have hent : prefFit regions size align alignmask ent = none := h ent (by simp)
    have hrest : ∀ e ∈ rest, prefFit regions size align alignmask e = none :=
      fun e he => h e (by simp [he])
    rw [allocScan, List.foldl_cons]
    dsimp only
    by_cases h1 : ent.start + (size - 1) +
        ((align - (ent.start &&& alignmask)) &&& alignmask) ≥ U64
    · rw [if_pos h1]
      have hs : allocStep size align alignmask acc ent = acc := by
        unfold allocStep
        dsimp only
        rw [if_pos h1]
      rw [hs]
      exact ih acc hrest
    · rw [if_neg h1]
      by_cases h2 : ent.start + (size - 1) +
          ((align - (ent.start &&& alignmask)) &&& alignmask) > ent.stop
      · rw [if_pos h2]
        have hs : allocStep size align alignmask acc ent = acc := by
          unfold allocStep
          dsimp only
          rw [if_neg h1, if_pos h2]
        rw [hs]
        exact ih acc hrest
      · rw [if_neg h2, hent]
        have hs : allocStep size align alignmask acc ent =
            match acc with
            | none => some (ent.start,
                ent.start + (size - 1) + ((align - (ent.start &&& alignmask)) &&& alignmask),
                ent.start + ((align - (ent.start &&& alignmask)) &&& alignmask))
            | some (pb, pe, pp) =>
              if pe - pb > ent.start + (size - 1) +
                  ((align - (ent.start &&& alignmask)) &&& alignmask) - ent.start then
                some (ent.start,
                  ent.start + (size - 1) + ((align - (ent.start &&& alignmask)) &&& alignmask),
                  ent.start + ((align - (ent.start &&& alignmask)) &&& alignmask))
              else some (pb, pe, pp) := by
          unfold allocStep
          dsimp only
          rw [if_neg h1, if_neg h2]
        rw [hs]
        cases acc with
        | none => exact ih _ hrest
        | some c0 =>
          obtain ⟨pb, pe, pp⟩ := c0
          dsimp only
          by_cases hcmp : pe - pb > ent.start + (size - 1) +
              ((align - (ent.start &&& alignmask)) &&& alignmask) - ent.start
          · rw [if_pos hcmp, if_pos hcmp]
            exact ih _ hrest
          · rw [if_neg hcmp, if_neg hcmp]
            exact ih _ hrest


/-- Characterisation of the fallback fold: a produced candidate either is the
untouched accumulator (no fitting entry beats it) or is built from a fitting
entry `e` that strictly beats every fitting entry before it (and the
accumulator) and is never beaten by a fitting entry after it. -/
theorem foldl_allocStep_char (size align alignmask : Nat) :
    ∀ (l : List Range) (acc : Option (Nat × Nat × Nat)) (c : Nat × Nat × Nat),
      List.foldl (allocStep size align alignmask) acc l = some c →
      (acc = some c ∧
        ∀ x ∈ l.filter (fitsB size align alignmask),
          spanOf size align alignmask x ≥ cspan c) ∨
      (∃ e l1 l2, l.filter (fitsB size align alignmask) = l1 ++ e :: l2 ∧
        c = candOf size align alignmask e ∧
        (∀ x ∈ l1, spanOf size align alignmask x > spanOf size align alignmask e) ∧
        (∀ x ∈ l2, spanOf size align alignmask x ≥ spanOf size align alignmask e) ∧
        (∀ c0, acc = some c0 → cspan c0 > spanOf size align alignmask e)) := by
  intro l
  induction l with
  | nil =>
    intro acc c h
    left
    exact ⟨by simpa using h, by simp⟩
  | cons ent rest ih =>
    intro acc c h
    rw [List.foldl_cons] at h
    cases hfit : fitsB size align alignmask ent with
    | false =>
      rw [allocStep_not_fits hfit] at h
      have hfilter : (ent :: rest).filter (fitsB size align alignmask) =
          rest.filter (fitsB size align alignmask) := by
        simp [List.filter_cons, hfit]
      rcases ih acc c h with ⟨ha, hmin⟩ | ⟨e, l1, l2, hsp, hc, h1, h2, hacc⟩
      · left
        exact ⟨ha, by rw [hfilter]; exact hmin⟩
      · right
        exact ⟨e, l1, l2, by rw [hfilter]; exact hsp, hc, h1, h2, hacc⟩
    | true =>
      rw [allocStep_fits hfit] at h
      have hfilter : (ent :: rest).filter (fitsB size align alignmask) =
          ent :: rest.filter (fitsB size align alignmask) := by
        simp [List.filter_cons, hfit]
      cases acc with
      | none =>
        dsimp only at h
        rcases ih (some (candOf size align alignmask ent)) c h with
          ⟨ha, hmin⟩ | ⟨e, l1, l2, hsp, hc, h1, h2, hacc⟩
        · right
          have hce : c = candOf size align alignmask ent := (Option.some.inj ha).symm
          refine ⟨ent, [], rest.filter (fitsB size align alignmask),
            by rw [hfilter]; rfl, hce, by simp, ?_, by simp⟩
          intro x hx
          have := hmin x hx
          rwa [hce, cspan_candOf] at this
        · right
          refine ⟨e, ent :: l1, l2, by rw [hfilter, hsp]; rfl, hc, ?_, h2, by simp⟩
          intro x hx
          rcases List.mem_cons.mp hx with rfl | hx'
          · have := hacc (candOf size align alignmask x) rfl
            rwa [cspan_candOf] at this
          · exact h1 x hx'
      | some c0 =>
        dsimp only at h
        by_cases hcmp : cspan c0 > spanOf size align alignmask ent
        · rw [if_pos hcmp] at h
          rcases ih (some (candOf size align alignmask ent)) c h with
            ⟨ha, hmin⟩ | ⟨e, l1, l2, hsp, hc, h1, h2, hacc⟩
          · right
            have hce : c = candOf size align alignmask ent := (Option.some.inj ha).symm
            refine ⟨ent, [], rest.filter (fitsB size align alignmask),
              by rw [hfilter]; rfl, hce, by simp, ?_, ?_⟩
            · intro x hx
              have := hmin x hx
              rwa [hce, cspan_candOf] at this
            · intro c0' h'
              rw [← Option.some.inj h']
              exact hcmp
          · right
            refine ⟨e, ent :: l1, l2, by rw [hfilter, hsp]; rfl, hc, ?_, h2, ?_⟩
            · intro x hx
              rcases List.mem_cons.mp hx with rfl | hx'
              · have := hacc (candOf size align alignmask x) rfl
                rwa [cspan_candOf] at this
              · exact h1 x hx'
            · intro c0' h'
              rw [← Option.some.inj h']
              have hent := hacc (candOf size align alignmask ent) rfl
              rw [cspan_candOf] at hent
              omega
        · rw [if_neg hcmp] at h
          rcases ih (some c0) c h with
            ⟨ha, hmin⟩ | ⟨e, l1, l2, hsp, hc, h1, h2, hacc⟩
          · left
            refine ⟨ha, ?_⟩
            intro x hx
            rw [hfilter] at hx
            rcases List.mem_cons.mp hx with rfl | hx'
            · have hc0c : c0 = c := Option.some.inj ha
              rw [← hc0c]
              omega
            · exact hmin x hx'
          · right
            refine ⟨e, ent :: l1, l2, by rw [hfilter, hsp]; rfl, hc, ?_, h2, ?_⟩
            · intro x hx
              rcases List.mem_cons.mp hx with rfl | hx'
              · have := hacc c0 rfl
                omega
              · exact h1 x hx'
            · intro c0' h'
              rw [← Option.some.inj h']
              exact hacc c0 rfl


/-- C6 amended: with no preferred match anywhere (every entry's `prefFit`
is `none`, which `preferred = None` makes trivially true), a successful
`allocate_prefer` takes its allocation from the first fitting entry whose
*candidate span* `end - base = align_fix + size - 1` (the front alignment
padding plus the fixed request) is minimal — NOT from the entry of minimal
entry size `ent.end - ent.start`: earlier fitting entries have strictly
larger spans, later ones at least as large, and the returned base is that
entry's padded start. -/
theorem c6_fallback_min_padded_span_first (rs : RangeSet) (size align fuel ptr : Nat)
    (regions : Option RangeSet) (rs' : RangeSet)
    (hnp : ∀ e ∈ rs.entries, prefFit regions size align (align - 1) e = none)
    (h : rs.allocatePrefer size align regions fuel = some (.ok (ptr, rs'))) :
    ∃ e l1 l2, rs.entries.filter (fitsB size align (align - 1)) = l1 ++ e :: l2 ∧
      ptr = e.start + ((align - (e.start &&& (align - 1))) &&& (align - 1)) ∧
      (∀ x ∈ l1, spanOf size align (align - 1) x > spanOf size align (align - 1) e) ∧
      (∀ x ∈ l2, spanOf size align (align - 1) x ≥ spanOf size align (align - 1) e) := by
  unfold RangeSet.allocatePrefer at h
  split at h
  · simp at h
  · split at h
    · simp at h
    · dsimp only at h
      split at h
      · rename_i base stop ptr2 hscan
        rw [allocScan_noPref size align (align - 1) regions rs.entries none hnp] at hscan
        rcases foldl_allocStep_char size align (align - 1) rs.entries none
            (base, stop, ptr2) hscan with
          ⟨ha, _⟩ | ⟨e, l1, l2, hsp, hc, h1, h2, _⟩
        · simp at ha
        · split at h
          · simp at h
          · rename_i rs2 hrem
            simp only [Option.some.injEq, Except.ok.injEq, Prod.mk.injEq] at h
            refine ⟨e, l1, l2, hsp, ?_, h1, h2⟩
            have hp2 : ptr2 = (candOf size align (align - 1) e).2.2 := by
              rw [← hc]
            rw [← h.1, hp2]
            rfl
          · simp at h
      · simp at h

/-- The range set `{[0,1000], [2000,2010]}` in slot order (as two inserts
into a fresh set would lay it out). -/
def rsPair : RangeSet := ⟨⟨0, 1000⟩ :: ⟨2000, 2010⟩ :: List.replicate 254 ⟨0, 0⟩, 2⟩

/-- C6 counterexample: the claim says the fallback picks the entry of
minimal *entry size* `end − base`.  On `{[0,1000], [2000,2010]}`,
`allocate(1, 1)` fits in both entries and the second entry is strictly
smaller (10 vs 1000), yet the code returns base 0 from the first, larger
entry: with `align = 1` every candidate has the same `end - base`
(= `size - 1`), so the running candidate is never replaced and first-fit
wins, not best-fit by entry size. -/
theorem c6_larger_entry_chosen_over_smaller :
    rsPair.allocatePrefer 1 1 none 10 =
      some (.ok (0, ⟨⟨1, 1000⟩ :: ⟨2000, 2010⟩ :: List.replicate 254 ⟨0, 0⟩, 2⟩)) ∧
    (2010 : Nat) - 2000 < 1000 - 0 ∧ ¬(2000 ≤ (0 : Nat)) := by
  decide

/-- Witness for `c6_fallback_min_padded_span_first` on `rsPair` with
`size = 1`, `align = 1`, no preferred regions. -/
theorem c6_fallback_min_padded_span_first_witness :
    ∃ e l1 l2, rsPair.entries.filter (fitsB 1 1 (1 - 1)) = l1 ++ e :: l2 ∧
      (0 : Nat) = e.start + ((1 - (e.start &&& (1 - 1))) &&& (1 - 1)) ∧
      (∀ x ∈ l1, spanOf 1 1 (1 - 1) x > spanOf 1 1 (1 - 1) e) ∧
      (∀ x ∈ l2, spanOf 1 1 (1 - 1) x ≥ spanOf 1 1 (1 - 1) e) :=
  c6_fallback_min_padded_span_first rsPair 1 1 10 0 none
    ⟨⟨1, 1000⟩ :: ⟨2000, 2010⟩ :: List.replicate 254 ⟨0, 0⟩, 2⟩
    (fun _ _ => rfl) (by decide)


/-- `normR` lower/upper bounds. -/
theorem normR_start_min (r : Range) : (normR r).start = min r.start r.stop := by
  unfold normR
  split
  · dsimp only
    omega
  · omega

theorem normR_stop_max (r : Range) : (normR r).stop = max r.start r.stop := by
  unfold normR
  split
  · dsimp only
    omega
  · omega

/-- `normR` is the identity on well-formed ranges. -/
theorem normR_eq_self {r : Range} (h : r.start ≤ r.stop) : normR r = r := by
  unfold normR
  rw [if_neg (by omega)]

/-- Field characterisation of a successful `overlaps`. -/
theorem overlapsR_some {a b ov : Range} (h : overlapsR a b = some ov) :
    ov.start = max (normR a).start (normR b).start ∧
    ov.stop = min (normR a).stop (normR b).stop := by
  unfold overlapsR at h
  dsimp only at h
  split at h
  · cases h
    exact ⟨rfl, rfl⟩
  · exact absurd h (by simp)

/-- What a successful preferred-fit means: some preferred region overlaps
the entry in `ov`, the rounded-up base `ao` lies inside the overlap, the
allocation fits before the overlap's end, and the returned end is
`ao + (size - 1)`. -/
theorem prefFit_some_spec {regs : RangeSet} {size align m : Nat} {ent : Range}
    {ao ae : Nat} (h : prefFit (some regs) size align m ent = some (ao, ae)) :
    ae = ao + (size - 1) ∧
    ∃ reg ∈ regs.entries, ∃ ov, overlapsR ent reg = some ov ∧
      ao = ((ov.start + m) % U64) &&& (U64MAX - m) ∧
      ao ≥ ov.start ∧ ao ≤ ov.stop ∧ ov.stop - ao ≥ size - 1 := by
  unfold prefFit at h
  obtain ⟨reg, hmem, hreg⟩ := List.exists_of_findSome?_eq_some h
  split at hreg
  · exact absurd hreg (by simp)
  · rename_i ov hov
    dsimp only at hreg
    split at hreg
    · rename_i hcond
      have hinj := hreg
      simp only [Option.some.injEq, Prod.mk.injEq] at hinj
      refine ⟨?_, reg, hmem, ov, hov, ?_, ?_, ?_, ?_⟩
      · rw [← hinj.1, ← hinj.2]
      · rw [← hinj.1]
      · rw [← hinj.1]; exact hcond.1
      · rw [← hinj.1]; exact hcond.2.1
      · rw [← hinj.1]; exact hcond.2.2
    · exact absurd hreg (by simp)

/-- The rounded-up start `s + align_fix` is below any multiple of `2^k`
that is at least `s`. -/
theorem align_up_le_of_dvd (k s M : Nat) (hdvd : (2 ^ k) ∣ M) (hle : s ≤ M) :
    s + ((2 ^ k - (s &&& (2 ^ k - 1))) &&& (2 ^ k - 1)) ≤ M := by
  rw [Nat.and_pow_two_sub_one_eq_mod, Nat.and_pow_two_sub_one_eq_mod]
  obtain ⟨q, rfl⟩ := hdvd
  have ha : 0 < 2 ^ k := Nat.two_pow_pos k
  rcases Nat.eq_zero_or_pos (s % 2 ^ k) with h0 | hpos
  · rw [h0, Nat.sub_zero, Nat.mod_self, Nat.add_zero]
    exact hle
  · have hlt : s % 2 ^ k < 2 ^ k := Nat.mod_lt _ ha
    rw [Nat.mod_eq_of_lt (by omega)]
    have hdm := Nat.div_add_mod s (2 ^ k)
    have hq : s / 2 ^ k < q := by
      by_contra hh
      push_neg at hh
      have := Nat.mul_le_mul_left (2 ^ k) hh
      omega
    have hmul : 2 ^ k * (s / 2 ^ k + 1) ≤ 2 ^ k * q :=
      Nat.mul_le_mul_left _ (by omega)
    rw [Nat.mul_add, Nat.mul_one] at hmul
    omega

/-- A preferred fit inside a well-formed, representable entry implies the
entry also passes the preliminary from-start fit check (so the scan does
not skip it before testing the preferred regions). -/
theorem prefFit_implies_fits {regs : RangeSet} {size k : Nat} {ent : Range}
    {ao ae : Nat} (hwf : ent.start ≤ ent.stop) (hrep : ent.stop < U64)
    (h : prefFit (some regs) size (2 ^ k) (2 ^ k - 1) ent = some (ao, ae)) :
    fitsB size (2 ^ k) (2 ^ k - 1) ent = true := by
  obtain ⟨hae, reg, hmem, ov, hov, hao, hge, hle, hsz⟩ := prefFit_some_spec h
  have hdvd : (2 ^ k) ∣ ao := by
    rw [hao]
    exact and_compl_dvd k ((ov.start + (2 ^ k - 1)) % U64)
  obtain ⟨hovs, hovt⟩ := overlapsR_some hov
  rw [normR_eq_self hwf] at hovs hovt
  have hs1 : ent.start ≤ ov.start := hovs ▸ Nat.le_max_left _ _
  have hs2 : ov.stop ≤ ent.stop := hovt ▸ Nat.min_le_left _ _
  have hup : ent.start + ((2 ^ k - (ent.start &&& (2 ^ k - 1))) &&& (2 ^ k - 1)) ≤ ao :=
    align_up_le_of_dvd k ent.start ao hdvd (by omega)
  unfold fitsB
  simp only [decide_eq_true_eq]
  constructor
  · simp only [U64] at *
    omega
  · omega


/-- A preferred-fit base lies inside (the normalisation of) some preferred
region. -/
theorem prefFit_in_region {regs : RangeSet} {size align m : Nat} {ent : Range}
    {ao ae : Nat} (h : prefFit (some regs) size align m ent = some (ao, ae)) :
    ∃ reg ∈ regs.entries, min reg.start reg.stop ≤ ao ∧ ao ≤ max reg.start reg.stop := by
  obtain ⟨-, reg, hmem, ov, hov, -, hge, hle, -⟩ := prefFit_some_spec h
  obtain ⟨hovs, hovt⟩ := overlapsR_some hov
  refine ⟨reg, hmem, ?_, ?_⟩
  · have h1 : (normR reg).start ≤ ov.start := hovs ▸ Nat.le_max_right _ _
    rw [normR_start_min] at h1
    omega
  · have h2 : ov.stop ≤ (normR reg).stop := hovt ▸ Nat.min_le_right _ _
    rw [normR_stop_max] at h2
    omega

/-- The scan breaks out at the first entry carrying a preferred fit (all
earlier entries having none), returning exactly that fit, whatever running
candidate the earlier entries produced. -/
theorem allocScan_pref_break (size align m : Nat) (regions : Option RangeSet) :
    ∀ (l1 : List Range) (acc : Option (Nat × Nat × Nat)) (ent : Range)
      (l2 : List Range) (ao ae : Nat),
      (∀ x ∈ l1, prefFit regions size align m x = none) →
      prefFit regions size align m ent = some (ao, ae) →
      fitsB size align m ent = true →
      allocScan size align m regions (l1 ++ ent :: l2) acc = some (ao, ae, ao) := by
  intro l1
  induction l1 with
  | nil =>
    intro acc ent l2 ao ae _ hpf hfit
    unfold fitsB at hfit
    simp only [decide_eq_true_eq] at hfit
    rw [List.nil_append, allocScan]
    dsimp only
    rw [if_neg (by omega), if_neg (by omega), hpf]
  | cons x l1' ih =>
    intro acc ent l2 ao ae hnone hpf hfit
    have hx : prefFit regions size align m x = none := hnone x (by simp)
    have hrest : ∀ y ∈ l1', prefFit regions size align m y = none :=
      fun y hy => hnone y (by simp [hy])
    rw [List.cons_append, allocScan]
    dsimp only
    by_cases h1 : x.start + (size - 1) + ((align - (x.start &&& m)) &&& m) ≥ U64
    · rw [if_pos h1]
      exact ih acc ent l2 ao ae hrest hpf hfit
    · rw [if_neg h1]
      by_cases h2 : x.start + (size - 1) + ((align - (x.start &&& m)) &&& m) > x.stop
      · rw [if_pos h2]
        exact ih acc ent l2 ao ae hrest hpf hfit
      · rw [if_neg h2, hx]
        cases acc with
        | none => exact ih _ ent l2 ao ae hrest hpf hfit
        | some c0 =>
          obtain ⟨pb, pe, pp⟩ := c0
          dsimp only
          by_cases hcmp : pe - pb > x.start + (size - 1) +
              ((align - (x.start &&& m)) &&& m) - x.start
          · rw [if_pos hcmp]
            exact ih _ ent l2 ao ae hrest hpf hfit
          · rw [if_neg hcmp]
            exact ih _ ent l2 ao ae hrest hpf hfit

/-- The only error the remove scan can produce, when its bound is within
the live count, is `OutOfEntries` (from a split with no free slot): the
`delete` inside is always called in bounds. -/
theorem removeScan_fail_out_of_entries (range : Range) :
    ∀ (rem : Nat) (rs : RangeSet) (ii : Nat) (e : RsError),
      ii + rem ≤ rs.inUse → removeScan range rs ii rem = .fail e →
      e = .outOfEntries := by
  intro rem
  induction rem with
  | zero =>
    intro rs ii e _ h
    exact absurd h (by simp [removeScan])
  | succ rem ih =>
    intro rs ii e hbound h
    rw [removeScan] at h
    dsimp only at h
    split at h
    · exact ih rs (ii + 1) e (by omega) h
    · split at h
      · split at h
        · exact absurd h (by simp)
        · rename_i e' hdel
          unfold RangeSet.delete at hdel
          split at hdel
          · rename_i hge
            omega
          · exact absurd hdel (by simp)
      · split at h
        · exact ih _ (ii + 1) e (by dsimp only; omega) h
        · split at h
          · exact ih _ (ii + 1) e (by dsimp only; omega) h
          · split at h
            · exact absurd h (by simp)
            · cases h
              rfl

/-- The outer remove loop propagates only `OutOfEntries` as an error. -/
theorem removeLoop_error (range : Range) :
    ∀ (fuel : Nat) (rs : RangeSet) (e : RsError),
      removeLoop range fuel rs = some (.error e) → e = .outOfEntries := by
  intro fuel
  induction fuel with
  | zero =>
    intro rs e h
    exact absurd h (by simp [removeLoop])
  | succ fuel ih =>
    intro rs e h
    rw [removeLoop] at h
    split at h
    · exact absurd h (by simp)
    · exact ih _ e h
    · rename_i e' hscan
      have := removeScan_fail_out_of_entries range rs.inUse rs 0 e' (by omega) hscan
      simp only [Option.some.injEq] at h
      cases h
      exact this

/-- `remove` of a valid range fails, if at all, with `OutOfEntries`. -/
theorem remove_error_out_of_entries {rs : RangeSet} {range : Range} {fuel : Nat}
    {e : RsError} (hv : ¬range.stop < range.start)
    (h : rs.remove range fuel = some (.error e)) : e = .outOfEntries := by
  unfold RangeSet.remove at h
  rw [if_neg hv] at h
  exact removeLoop_error range fuel rs e h


/-- C5 amended: when the entries split as `l1 ++ ent :: l2` with no
preferred fit in `l1` and a preferred fit `(ao, ae)` in the well-formed,
`u64`-representable entry `ent`, the scan accepts that first fit
immediately (whatever candidates `l1` produced, and whatever `l2` holds,
larger free entries included) and `allocate_prefer` either returns exactly
the base `ao` — which lies inside one of the preferred regions — or fails
with `OutOfEntries` when the final removal of the carved range must split
an entry and all 256 slots are in use. -/
theorem c5_first_pref_fit_taken (rs regs : RangeSet) (size align fuel : Nat)
    (l1 l2 : List Range) (ent : Range) (ao ae : Nat)
    (r : Except RsError (Nat × RangeSet))
    (hsz : size ≠ 0) (hal : countOnes align = 1)
    (hsplit : rs.entries = l1 ++ ent :: l2)
    (hl1 : ∀ x ∈ l1, prefFit (some regs) size align (align - 1) x = none)
    (hent : prefFit (some regs) size align (align - 1) ent = some (ao, ae))
    (hwf : ent.start ≤ ent.stop) (hrep : ent.stop < U64)
    (h : rs.allocatePrefer size align (some regs) fuel = some r) :
    (∃ reg ∈ regs.entries, min reg.start reg.stop ≤ ao ∧ ao ≤ max reg.start reg.stop) ∧
    (r = .error .outOfEntries ∨ ∃ rs', r = .ok (ao, rs')) := by
  refine ⟨prefFit_in_region hent, ?_⟩
  obtain ⟨k, rfl⟩ := countOnes_eq_one hal
  have hfit : fitsB size (2 ^ k) (2 ^ k - 1) ent = true :=
    prefFit_implies_fits hwf hrep hent
  have hscan : allocScan size (2 ^ k) (2 ^ k - 1) (some regs) rs.entries none =
      some (ao, ae, ao) := by
    rw [hsplit]
    exact allocScan_pref_break size (2 ^ k) (2 ^ k - 1) (some regs) l1 none ent l2 ao ae
      hl1 hent hfit
  have hae : ae = ao + (size - 1) := (prefFit_some_spec hent).1
  unfold RangeSet.allocatePrefer at h
  rw [if_neg hsz, if_neg (not_not_intro hal)] at h
  dsimp only at h
  rw [hscan] at h
  dsimp only at h
  rcases hrem : rs.remove ⟨ao, ae⟩ fuel with - | res
  · rw [hrem] at h
    exact absurd h (by simp)
  · rw [hrem] at h
    cases res with
    | ok rs' =>
      dsimp only at h
      simp only [Option.some.injEq] at h
      exact Or.inr ⟨rs', h.symm⟩
    | error e =>
      dsimp only at h
      simp only [Option.some.injEq] at h
      have he : e = .outOfEntries := by
        refine remove_error_out_of_entries ?_ hrem
        dsimp only
        omega
      rw [← h, he]
      exact Or.inl rfl

/-- A full range set: 256 disjoint, non-adjacent entries `[10i, 10i+5]`. -/
def rs256 : RangeSet := ⟨(List.range 256).map (fun i => ⟨10 * i, 10 * i + 5⟩), 256⟩

/-- One preferred region `[2,3]`, inside `rs256`'s first entry. -/
def prefRS : RangeSet := ⟨⟨2, 3⟩ :: List.replicate 255 ⟨0, 0⟩, 1⟩

/-- C5 counterexample: the claim says that whenever an aligned allocation
fits inside the overlap of a free entry and a preferred region,
`allocate_prefer` returns a base inside that region.  With all 256 slots in
use and the preferred fit `[2,2]` strictly inside the free entry `[0,5]`,
the accepted carve needs a split of that entry, no slot is free, and the
call returns `OutOfEntries` instead of a base address. -/
theorem c5_full_table_pref_fit_returns_out_of_entries :
    prefFit (some prefRS) 1 1 0 ⟨0, 5⟩ = some (2, 2) ∧
    rs256.inUse = 256 ∧
    rs256.allocatePrefer 1 1 (some prefRS) 10 = some (.error .outOfEntries) := by
  decide

/-- The set `{[0,100]}`. -/
def rs0100 : RangeSet := ⟨⟨0, 100⟩ :: List.replicate 255 ⟨0, 0⟩, 1⟩

/-- One preferred region `[16,20]`, strictly inside `[0,100]`. -/
def regs1620 : RangeSet := ⟨⟨16, 20⟩ :: List.replicate 255 ⟨0, 0⟩, 1⟩

/-- Witness for `c5_first_pref_fit_taken`: allocating 2 bytes aligned to 8
from `{[0,100]}` preferring `[16,20]` carves `[16,17]` and returns base 16,
inside the preferred region. -/
theorem c5_first_pref_fit_taken_witness :
    (∃ reg ∈ regs1620.entries, min reg.start reg.stop ≤ 16 ∧ 16 ≤ max reg.start reg.stop) ∧
    ((Except.ok (16, (⟨⟨18, 100⟩ :: ⟨0, 15⟩ :: List.replicate 254 ⟨0, 0⟩, 2⟩ : RangeSet)) :
        Except RsError (Nat × RangeSet)) = .error .outOfEntries ∨
      ∃ rs', (Except.ok (16, (⟨⟨18, 100⟩ :: ⟨0, 15⟩ :: List.replicate 254 ⟨0, 0⟩, 2⟩ : RangeSet)) :
        Except RsError (Nat × RangeSet)) = .ok (16, rs')) :=
  c5_first_pref_fit_taken rs0100 regs1620 2 8 10 [] [] ⟨0, 100⟩ 16 17
    (.ok (16, ⟨⟨18, 100⟩ :: ⟨0, 15⟩ :: List.replicate 254 ⟨0, 0⟩, 2⟩))
    (by decide) (by decide) (by decide) (by simp) (by decide) (by decide) (by decide)
    (by decide)

end Fuzzoz
